import Mathlib

/-!
A shallow embedding of the entity-component store of the `ixa_core`
repository (`src/entity/*.rs`, `src/property.rs`, `src/property_map.rs`,
`src/context.rs`), sufficient to settle the claims about queries,
indexes, initialization lists and the property table.

Modelling conventions:

* A property type `T` is identified by a `Nat` key (Rust's `TypeId`).
  The static data a Rust property type carries (`name()`, `is_required()`,
  `is_derived()`, and for derived properties the `compute` closure) is a
  parameter `meta : Nat -> PropMeta` of every operation.
* A property value is its serialized byte stream (`Val := List (Fin 256)`),
  i.e. exactly the bytes an `IndexValueHasher` accumulates; `PartialEq` on
  values is byte-stream equality.  This matches Rust types whose `Hash`
  writes a canonical encoding of the value.
* `HashMap`s become association lists, `HashSet<EntityId>` becomes a
  duplicate-free-by-construction `List Nat` in insertion order (the spec
  leaves iteration order unspecified).
* Panics (`assert!`, `panic!`, `unwrap` on a missing value) are modelled
  by `Option`/`Except`: a panicking execution produces no result state.
* The host `Context` holds the `EntityData` plugin, created on first use
  with `Default`; we take the state to be the `EntityData` itself (all
  observations of a missing container coincide with those of the default
  container, cf. `get_entity_count`).
* The `dependency_map` bookkeeping of `register_derived_property` and the
  change-event machinery (`is_initializing`) are carried but inert: no
  claim reads them and the source wires no event hooks.
-/

namespace IxaCore

/-- A byte, as fed to `IndexValueHasher::write`. -/
abbrev Byte := Fin 256

/-- A property value, represented by its serialized byte stream. -/
abbrev Val := List Byte

/-- `u128::from_le_bytes`: little-endian interpretation, first byte least
significant.  (No truncation is needed: 16 bytes fit `u128` exactly.) -/
def fromLEBytes : List Byte → Nat
  | [] => 0
  | b :: rest => b.val + 256 * fromLEBytes rest

/-- Zero-padding of a byte stream to 16 bytes, as in the `tmp` buffer of
`IndexValue::new` (`src/entity/index.rs:35`). -/
def padTo16 (s : List Byte) : List Byte :=
  s ++ List.replicate (16 - s.length) (0 : Byte)

/-- `IndexValue` (`src/entity/index.rs:25`): the lookup key for index
entries; a serialization of the value, inline when it fits in 128 bits. -/
inductive IndexValue where
  | Fixed : Nat → IndexValue
  | Variable : List Byte → IndexValue
deriving DecidableEq, Repr

/-- `IndexValue::new` (`src/entity/index.rs:31`), with the hashing step
factored out: the argument is the byte stream the value hashes to. -/
def IndexValue.new (buf : List Byte) : IndexValue :=
  if buf.length ≤ 16 then .Fixed (fromLEBytes (padTo16 buf)) else .Variable buf

/-- Association-list lookup (model of `HashMap::get`). -/
def alookup {κ α : Type} [DecidableEq κ] : List (κ × α) → κ → Option α
  | [], _ => none
  | (k, v) :: rest, key => if k = key then some v else alookup rest key

/-- Association-list insert-or-replace (model of `HashMap::insert` /
`entry().or_insert_with`). -/
def aupdate {κ α : Type} [DecidableEq κ] : List (κ × α) → κ → α → List (κ × α)
  | [], key, v => [(key, v)]
  | (k, w) :: rest, key, v =>
    if k = key then (k, v) :: rest else (k, w) :: aupdate rest key v

/-- `HashSet<EntityId>::insert`: add if absent. -/
def hsInsert (s : List Nat) (e : Nat) : List Nat :=
  if e ∈ s then s else s ++ [e]

/-- `PropertyInfo` (`src/property.rs:17`): `(Name, TypeId, IsRequired,
IsDerived)`. -/
structure PropertyInfo where
  name : String
  type_id : Nat
  is_required : Bool
  is_derived : Bool
deriving DecidableEq, Repr

/-- `PropertyStore<T>` (`src/property_map.rs:12`): a dense column of
optional values indexed by entity id. -/
structure PropertyStore where
  is_required : Bool
  values : List (Option Val)
deriving DecidableEq, Repr

/-- `PropertyStore::new`. -/
def PropertyStore.new : PropertyStore :=
  { is_required := false, values := [] }

/-- `Index<T>` (`src/entity/index.rs:67`): value-key to entity-set lookup
(`None` = not indexed) plus the lazy-indexing high-water mark. -/
structure Index where
  lookup : Option (List (IndexValue × List Nat))
  max_indexed : Nat
deriving DecidableEq, Repr

/-- `Index::new` (`src/entity/index.rs:79`). -/
def Index.new : Index :=
  { lookup := none, max_indexed := 0 }

/-- Static metadata of a Rust property type `T`: the values of the
`Property` trait functions, plus the derived-property `compute` closure
(used only when `is_derived`). -/
structure PropMeta where
  name : String
  is_required : Bool
  is_derived : Bool
  derivedCompute : List (Nat × PropertyStore) → Nat → Option Val

/-- The family of property types, keyed by `TypeId`. -/
abbrev PropMetaF := Nat → PropMeta

/-- `EntityData` (`src/entity/data.rs:16`). -/
structure EntityData where
  is_initializing : Bool
  entity_count : Nat
  properties_map : List (Nat × PropertyStore)
  registered_derived_properties : List Nat
  property_indexes : List (Nat × Index)
  property_metadata : List PropertyInfo
deriving DecidableEq, Repr

/-- `EntityData::default` (`src/entity/data.rs:34`). -/
def EntityData.default : EntityData :=
  { is_initializing := false
  , entity_count := 0
  , properties_map := []
  , registered_derived_properties := []
  , property_indexes := []
  , property_metadata := [] }

/-- `EntityData::get_property_ref` (`src/entity/data.rs:63`): `None` when
the column is missing, the row is past the column length, or the slot is
`None`. -/
def EntityData.get_property_ref (s : EntityData) (p : Nat) (e : Nat) : Option Val :=
  match alookup s.properties_map p with
  | none => none
  | some store => store.values.getD e none

/-- The column-growing write of `EntityData::get_property_mut`
(`src/entity/data.rs:77`): `resize_with(idx + 1, None)` when `idx` is past
the end, then store `Some value` at `idx`. -/
def growWrite (l : List (Option Val)) (idx : Nat) (v : Val) : List (Option Val) :=
  (if idx < l.length then l else l ++ List.replicate (idx + 1 - l.length) none).set idx (some v)

/-- `EntityData::set_property` (`src/entity/data.rs:89`), equivalently
`ContextEntityExt::set_property` (`src/entity/context_ext.rs:107`), which
is `*EntityData::get_property_mut(id) = Some(value)` with no registration.
Returns `none` for the `assert!(!T::is_derived())` panic.  The column is
created by `get_container_mut` when absent. -/
def EntityData.set_property (meta : PropMetaF) (s : EntityData) (p : Nat) (e : Nat)
    (v : Val) : Option EntityData :=
  if (meta p).is_derived then none
  else
    let store := (alookup s.properties_map p).getD PropertyStore.new
    some { s with properties_map :=
            aupdate s.properties_map p { store with values := growWrite store.values e v } }

/-- `EntityData::add_entity` (`src/entity/data.rs:57`): hand out the next
id and bump `entity_count`. -/
def EntityData.add_entity_raw (s : EntityData) : EntityData × Nat :=
  ({ s with entity_count := s.entity_count + 1 }, s.entity_count)

/-- `T::compute` (`src/property.rs:84` and the `define_derived_property!`
macro): a column read for stored properties, the user closure for derived
ones.  The derived closure is given the raw columns, which is all the
dependency reads `get_property_internal` can observe. -/
def computeP (meta : PropMetaF) (s : EntityData) (p : Nat) (e : Nat) : Option Val :=
  if (meta p).is_derived then (meta p).derivedCompute s.properties_map e
  else s.get_property_ref p e

/-- `IxaError` (constructed in `src/entity/data.rs:112`; the enum lives in
the crate's `error` module). -/
inductive IxaError where
  | ixaError : String → IxaError
deriving DecidableEq, Repr

/-- Panics the entity core can raise, with their diagnostic payloads. -/
inductive RtError where
  | missingIndexValue : Nat → String → RtError
  | derivedWrite : String → RtError
deriving DecidableEq, Repr

/-- `Property::register` via `register_nonderived_property` /
`register_derived_property` (`src/entity/context_ext.rs:219`): on first
touch push the type key and its `PropertyInfo`, and install an empty
`Index` slot.  (`register_derived_property` additionally records reverse
dependencies in `dependency_map`, which nothing in the core reads; the
double-registration asserts cannot fire behind the `is_registered`
guard.) -/
def registerProperty (meta : PropMetaF) (s : EntityData) (p : Nat) : EntityData :=
  if p ∈ s.registered_derived_properties then s
  else
    { s with
      registered_derived_properties := s.registered_derived_properties ++ [p]
      property_metadata := s.property_metadata ++
        [{ name := (meta p).name, type_id := p
         , is_required := (meta p).is_required, is_derived := (meta p).is_derived }]
      property_indexes := aupdate s.property_indexes p Index.new }

/-- `ContextEntityExt::get_property` (`src/entity/context_ext.rs:72`):
register, then compute; returns the possibly-extended state. -/
def getProperty (meta : PropMetaF) (s : EntityData) (p : Nat) (e : Nat) :
    EntityData × Option Val :=
  let s1 := registerProperty meta s p
  (s1, computeP meta s1 p e)

/-- `ContextEntityExtInternal::index_property`
(`src/entity/context_ext.rs:162`): register, then flip `lookup` from
`None` to `Some(empty)`; does not populate. -/
def indexProperty (meta : PropMetaF) (s : EntityData) (p : Nat) : EntityData :=
  let s1 := registerProperty meta s p
  let ix := (alookup s1.property_indexes p).getD Index.new
  let ix' := if ix.lookup.isNone then { ix with lookup := some [] } else ix
  { s1 with property_indexes := aupdate s1.property_indexes p ix' }

/-- Adding an entity id to the bucket of an index value:
`lookup.entry(index_value).or_insert_with(HashSet::default).insert(id)`
(`src/entity/index.rs:137`). -/
def bucketAdd (m : List (IndexValue × List Nat)) (iv : IndexValue) (e : Nat) :
    List (IndexValue × List Nat) :=
  match alookup m iv with
  | some bucket => aupdate m iv (hsInsert bucket e)
  | none => m ++ [(iv, hsInsert [] e)]

/-- `Index::insert` (`src/entity/index.rs:137`).  The source unwraps
`self.lookup`; every call site has checked `lookup.is_some()` first, so
the `none` branch is unreachable from the modelled operations. -/
def Index.insertEntry (ix : Index) (e : Nat) (iv : IndexValue) : Index :=
  match ix.lookup with
  | none => ix
  | some m => { ix with lookup := some (bucketAdd m iv e) }

/-- The loop body of `Index::index_unindexed_entities`: each call is
`Index::add_entity` (`src/entity/index.rs:89`), which panics with a
diagnostic naming the entity and the property when the value is `None`. -/
def indexLoop (meta : PropMetaF) (s : EntityData) (p : Nat) :
    List Nat → Index → Except RtError Index
  | [], ix => .ok ix
  | e :: rest, ix =>
    match computeP meta s p e with
    | some v => indexLoop meta s p rest (ix.insertEntry e (IndexValue.new v))
    | none => .error (.missingIndexValue e (meta p).name)

/-- `Index::index_unindexed_entities` (`src/entity/index.rs:124`): no-op
when `lookup` is `None`; otherwise index every id in
`[max_indexed, entity_count)` and set `max_indexed` to `entity_count`. -/
def indexUnindexed (meta : PropMetaF) (s : EntityData) (p : Nat) (ix : Index) :
    Except RtError Index :=
  match ix.lookup with
  | none => .ok ix
  | some _ =>
    (indexLoop meta s p (List.range' ix.max_indexed (s.entity_count - ix.max_indexed)) ix).map
      (fun ix' => { ix' with max_indexed := s.entity_count })

/-- An initialization list: the ordered tuple of initial property values,
as `(TypeId, value)` pairs (`src/entity/init_list.rs`). -/
abbrev InitList := List (Nat × Val)

/-- `InitializationList::has_property`: true if the tuple carries a value
of the given property type (`src/entity/init_list.rs:50`). -/
def hasProperty (init : InitList) (t : Nat) : Bool :=
  init.any (fun pv => pv.1 = t)

/-- `InitializationList::set_properties` (`src/entity/init_list.rs:57`):
write each component through `EntityData::set_property` in order.  `none`
models the derived-write panic. -/
def setProperties (meta : PropMetaF) (init : InitList) (s : EntityData) (e : Nat) :
    Option EntityData :=
  init.foldlM (fun acc pv => EntityData.set_property meta acc pv.1 e pv.2) s

/-- `EntityData::check_initialization_list` (`src/entity/data.rs:107`):
scan the metadata and fail on the first required property the list does
not carry. -/
def checkList (init : InitList) : List PropertyInfo → Except IxaError Unit
  | [] => .ok ()
  | info :: rest =>
    if info.is_required && !(hasProperty init info.type_id) then
      .error (.ixaError ("Missing initial value " ++ info.name))
    else checkList init rest

/-- `ContextEntityExt::add_entity` (`src/entity/context_ext.rs:56`):
validate the initialization list, then allocate the id and write the
initial values with `is_initializing` set.  The outer `Option` models the
derived-write panic inside `set_properties`. -/
def addEntityC (meta : PropMetaF) (s : EntityData) (init : InitList) :
    Option (EntityData × Except IxaError Nat) :=
  match checkList init s.property_metadata with
  | .error err => some (s, .error err)
  | .ok _ =>
    match setProperties meta init
        { s with entity_count := s.entity_count + 1, is_initializing := true }
        s.entity_count with
    | some s2 => some ({ s2 with is_initializing := false }, .ok s.entity_count)
    | none => none

/-- A query: the ordered tuple of `(PropertyType, value)` predicates
(`src/entity/query.rs`). -/
abbrev QueryL := List (Nat × Val)

/-- One refresh of `Query::setup`'s second phase: fetch the property's
index (`get_container_mut` creates a default when absent), run
`index_unindexed_entities`, and store the result back. -/
def setupStep (meta : PropMetaF) (acc : EntityData) (pv : Nat × Val) :
    Except RtError EntityData :=
  (indexUnindexed meta acc pv.1 ((alookup acc.property_indexes pv.1).getD Index.new)).map
    (fun ix' => { acc with property_indexes := aupdate acc.property_indexes pv.1 ix' })

/-- `Query::setup` (`src/entity/query.rs:164`): first register every
unregistered property of the query, then refresh each property's index
with `index_unindexed_entities` (which can panic on missing values). -/
def querySetup (meta : PropMetaF) (s : EntityData) (q : QueryL) :
    Except RtError EntityData :=
  q.foldlM (setupStep meta) (q.foldl (fun acc pv => registerProperty meta acc pv.1) s)

/-- Phase 2 of `Query::execute_query` (`src/entity/query.rs:194`): walk
the predicates collecting, per predicate, either the bucket for the
predicate's hashed value (indexed) or the `(TypeId, hash)` probe
(unindexed).  `none` is the early return when an indexed predicate's
bucket is absent: the intersection is empty. -/
def collectProbes (s : EntityData) :
    QueryL → Option (List (List Nat) × List (Nat × IndexValue))
  | [] => some ([], [])
  | (p, v) :: rest =>
    match collectProbes s rest with
    | none => none
    | some (idxs, unidx) =>
      let ix := (alookup s.property_indexes p).getD Index.new
      match ix.lookup with
      | some m =>
        match alookup m (IndexValue.new v) with
        | some bucket => some (bucket :: idxs, unidx)
        | none => none
      | none => some (idxs, (p, IndexValue.new v) :: unidx)

/-- The index of the first list of minimal length, scanning with a strict
comparison as the `min_len` loop does (`src/entity/query.rs:232`). -/
def minIdxAux : List (List Nat) → Nat → Nat → Option Nat → Nat
  | [], _, best, _ => best
  | l :: ls, i, best, bestLen =>
    if bestLen.all (fun n => l.length < n) then minIdxAux ls (i + 1) i (some l.length)
    else minIdxAux ls (i + 1) best bestLen

/-- Index of the first shortest bucket.  `none` plays `usize::MAX`. -/
def minIdx (ls : List (List Nat)) : Nat :=
  minIdxAux ls 0 0 none

/-- `Vec::remove`: drop the element at a position, keeping order. -/
def removeAt {α : Type} : List α → Nat → List α
  | [], _ => []
  | _ :: rest, 0 => rest
  | x :: rest, n + 1 => x :: removeAt rest n

/-- The filter of phase 4 (`src/entity/query.rs:246`): a candidate
survives iff it lies in every remaining bucket and satisfies every
unindexed probe (a raw `get_property_ref` column read compared by
`IndexValue`). -/
def passesFilters (s : EntityData) (rest : List (List Nat))
    (unidx : List (Nat × IndexValue)) (e : Nat) : Bool :=
  rest.all (fun bucket => e ∈ bucket) &&
  unidx.all (fun pu =>
    match s.get_property_ref pu.1 e with
    | some value => IndexValue.new value = pu.2
    | none => false)

/-- `Query::execute_query` (`src/entity/query.rs:183`), parametric in the
caller's accumulator as in the source.  The empty tuple's instance
(`src/entity/query.rs:34`) accumulates nothing. -/
def executeQueryAcc {α : Type} (s : EntityData) (q : QueryL)
    (f : α → Nat → α) (a : α) : α :=
  match q with
  | [] => a
  | _ =>
    match collectProbes s q with
    | none => a
    | some (idxs, unidx) =>
      let (cands, rest) :=
        if idxs.isEmpty then (List.range s.entity_count, [])
        else (idxs.getD (minIdx idxs) [], removeAt idxs (minIdx idxs))
      cands.foldl (fun acc e => if passesFilters s rest unidx e then f acc e else acc) a

/-- `ContextEntityExt::query_entities` (`src/entity/context_ext.rs:114`):
setup, then execute pushing each match into a vector. -/
def queryEntities (meta : PropMetaF) (s : EntityData) (q : QueryL) :
    Except RtError (EntityData × List Nat) :=
  (querySetup meta s q).map
    (fun s' => (s', executeQueryAcc s' q (fun l e => l ++ [e]) []))

/-- `ContextEntityExt::query_entity_count`
(`src/entity/context_ext.rs:128`): setup, then execute counting. -/
def queryEntityCount (meta : PropMetaF) (s : EntityData) (q : QueryL) :
    Except RtError (EntityData × Nat) :=
  (querySetup meta s q).map
    (fun s' => (s', executeQueryAcc s' q (fun c _ => c + 1) 0))

/-- `Query::match_entity` (`src/entity/query.rs:266`, unit instance at
`:35`): for each predicate, `get_property` (registering as it goes) and
compare values with `==`; short-circuit on the first failure. -/
def matchEntity (meta : PropMetaF) (s : EntityData) (q : QueryL) (e : Nat) :
    EntityData × Bool :=
  match q with
  | [] => (s, true)
  | (p, v) :: rest =>
    match (getProperty meta s p e).2 with
    | some w =>
      if w = v then matchEntity meta (getProperty meta s p e).1 rest e
      else ((getProperty meta s p e).1, false)
    | none => ((getProperty meta s p e).1, false)

/-- The store `get_container_mut` hands out for a property: the existing
column, or a fresh empty one. -/
def storeOf (s : EntityData) (p : Nat) : PropertyStore :=
  (alookup s.properties_map p).getD PropertyStore.new

/-- `ContextEntityExt::get_property_or_default`
(`src/entity/context_ext.rs:88`): a raw `EntityData::get_property_mut`
(no registration) that grows the column, then fills the slot with the
default when it is `None`.  `none` models the derived-write assert. -/
def getPropertyOrDefault (meta : PropMetaF) (s : EntityData) (p : Nat) (e : Nat)
    (d : Val) : Option (EntityData × Val) :=
  if (meta p).is_derived then none
  else
    match (storeOf s p).values.getD e none with
    | some v =>
      some
        ({ s with
            properties_map :=
              aupdate s.properties_map p
                { storeOf s p with
                    values :=
                      if e < (storeOf s p).values.length then (storeOf s p).values
                      else (storeOf s p).values ++
                        List.replicate (e + 1 - (storeOf s p).values.length) none } },
          v)
    | none =>
      some
        ({ s with
            properties_map :=
              aupdate s.properties_map p
                { storeOf s p with
                    values := growWrite (storeOf s p).values e d } },
          d)

deriving instance DecidableEq for Except

/-- Membership of an entity in the bucket of an index value. -/
def inBucket (ix : Index) (iv : IndexValue) (e : Nat) : Bool :=
  match ix.lookup with
  | some m => ((alookup m iv).getD []).contains e
  | none => false

/-- One step of the extension API of §6.2: `add_entity`, `set_property`,
`get_property`, `get_property_or_default`, `index_property`, the setup
phase of `query_entities` / `query_entity_count` (execution does not
mutate), and `match_entity`.  Panicking executions have no successor. -/
inductive Step (meta : PropMetaF) : EntityData → EntityData → Prop where
  | add (s : EntityData) (init : InitList) (s' : EntityData) (r : Except IxaError Nat) :
      addEntityC meta s init = some (s', r) → Step meta s s'
  | set (s : EntityData) (p e : Nat) (v : Val) (s' : EntityData) :
      EntityData.set_property meta s p e v = some s' → Step meta s s'
  | getP (s : EntityData) (p e : Nat) : Step meta s (getProperty meta s p e).1
  | getOrDefault (s : EntityData) (p e : Nat) (d : Val) (s' : EntityData) (v : Val) :
      getPropertyOrDefault meta s p e d = some (s', v) → Step meta s s'
  | indexP (s : EntityData) (p : Nat) : Step meta s (indexProperty meta s p)
  | setupQ (s : EntityData) (q : QueryL) (s' : EntityData) :
      querySetup meta s q = .ok s' → Step meta s s'
  | matchQ (s : EntityData) (q : QueryL) (e : Nat) : Step meta s (matchEntity meta s q e).1

/-- Reachability from a state through the extension operations. -/
inductive Reach (meta : PropMetaF) : EntityData → EntityData → Prop where
  | refl (s : EntityData) : Reach meta s s
  | tail (s t u : EntityData) : Reach meta s t → Step meta t u → Reach meta s u

/-- A family of plain stored properties (no requiredness, nothing
derived), for the concrete executions. -/
def metaPlain : PropMetaF := fun _ =>
  { name := "P", is_required := false, is_derived := false
  , derivedCompute := fun _ _ => none }

/-- One-byte sample values. -/
def v1 : Val := [(1 : Byte)]

def v2 : Val := [(2 : Byte)]

/-- The stale-index trace, state 1: `index_property::<P>()` on the fresh
table (property key 0). -/
def sIdx : EntityData := indexProperty metaPlain EntityData.default 0

/-- State 2: `add_entity((P = v1,))`, creating entity 0. -/
def sAdd : EntityData :=
  ((addEntityC metaPlain sIdx [(0, v1)]).getD (EntityData.default, .ok 0)).1

/-- State 3: after `query_entities((P = v1,))`, whose setup lazily indexes
entity 0 under `key(v1)` and advances the watermark. -/
def sQ1 : EntityData :=
  ((queryEntities metaPlain sAdd [(0, v1)]).toOption.getD (EntityData.default, [])).1

/-- State 4: `set_property(0, P = v2)` — the column now says `v2` but the
index still files entity 0 under `key(v1)` (no remove/re-add is wired). -/
def sSet : EntityData :=
  (EntityData.set_property metaPlain sQ1 0 0 v2).getD EntityData.default

/-- The index of property 0 in the stale state. -/
def ixStale : Index := (alookup sSet.property_indexes 0).getD Index.new

/-- A family with one required property (key 9, named `Name`) among plain
ones, for the required-property scenarios. -/
def metaReq : PropMetaF := fun p =>
  if p = 9 then
    { name := "Name", is_required := true, is_derived := false
    , derivedCompute := fun _ _ => none }
  else
    { name := "P", is_required := false, is_derived := false
    , derivedCompute := fun _ _ => none }

/-- Required-property trace, state 1: `add_entity(())` before the required
property was ever touched — nothing is registered, so the check passes. -/
def tAdd : EntityData :=
  ((addEntityC metaReq EntityData.default []).getD (EntityData.default, .ok 0)).1

/-- State 2: `get_property::<Name>(0)` registers the required property
while entity 0 already lives without a value for it. -/
def tReg : EntityData := (getProperty metaReq tAdd 9 0).1

/-- A state with one live entity and nothing else, for the empty-query
boundary claim. -/
def sOne : EntityData := { EntityData.default with entity_count := 1 }

/-! ### IndexValue keys (C6) -/

theorem fromLEBytes_inj : ∀ l1 l2 : List Byte, l1.length = l2.length →
    fromLEBytes l1 = fromLEBytes l2 → l1 = l2 := by
  intro l1
  induction l1 with
  | nil => intro l2 hlen _; cases l2 with
    | nil => rfl
    | cons b t => simp at hlen
  | cons b1 t1 ih =>
    intro l2 hlen heq
    cases l2 with
    | nil => simp at hlen
    | cons b2 t2 =>
      simp only [List.length_cons, Nat.succ.injEq] at hlen
      simp only [fromLEBytes] at heq
      have hb1 : b1.val < 256 := b1.isLt
      have hb2 : b2.val < 256 := b2.isLt
      have hv : b1.val = b2.val ∧ fromLEBytes t1 = fromLEBytes t2 := by omega
      have : b1 = b2 := Fin.ext hv.1
      rw [this, ih t2 hlen hv.2]

theorem padTo16_length {s : List Byte} (h : s.length ≤ 16) :
    (padTo16 s).length = 16 := by
  simp only [padTo16, List.length_append, List.length_replicate]
  omega

/-- Claim C6 (amended): `IndexValue::new` yields equal keys iff either both
byte streams fit in 16 bytes and agree after zero-padding to 16 bytes, or
both exceed 16 bytes and are equal; a stream of at most 16 bytes is stored
inline as the little-endian value of its zero-padding (`Fixed`), a longer
one as the byte vector (`Variable`).  (The original claim's "equal keys
iff equal streams" fails: zero-padding identifies streams that differ only
in trailing zero bytes.) -/
theorem indexValue_new_eq_iff (s1 s2 : List Byte) :
    (IndexValue.new s1 = IndexValue.new s2 ↔
      (s1.length ≤ 16 ∧ s2.length ≤ 16 ∧ padTo16 s1 = padTo16 s2) ∨
      (16 < s1.length ∧ s1 = s2))
    ∧ (s1.length ≤ 16 → IndexValue.new s1 = .Fixed (fromLEBytes (padTo16 s1)))
    ∧ (16 < s1.length → IndexValue.new s1 = .Variable s1) := by
  refine ⟨?_, ?_, ?_⟩
  · unfold IndexValue.new
    by_cases h1 : s1.length ≤ 16 <;> by_cases h2 : s2.length ≤ 16
    · rw [if_pos h1, if_pos h2]
      simp only [IndexValue.Fixed.injEq]
      constructor
      · intro heq
        exact Or.inl ⟨h1, h2, fromLEBytes_inj _ _ (by rw [padTo16_length h1, padTo16_length h2]) heq⟩
      · rintro (⟨_, _, hp⟩ | ⟨hgt, _⟩)
        · rw [hp]
        · omega
    · rw [if_pos h1, if_neg h2]
      constructor
      · intro heq; simp at heq
      · rintro (⟨_, h2', _⟩ | ⟨hgt, _⟩)
        · exact absurd h2' h2
        · omega
    · rw [if_neg h1, if_pos h2]
      constructor
      · intro heq; simp at heq
      · rintro (⟨h1', _, _⟩ | ⟨_, hseq⟩)
        · exact absurd h1' h1
        · subst hseq; exact absurd h2 h1
    · rw [if_neg h1, if_neg h2]
      simp only [IndexValue.Variable.injEq]
      constructor
      · intro heq; exact Or.inr ⟨by omega, heq⟩
      · rintro (⟨h1', _, _⟩ | ⟨_, hseq⟩)
        · exact absurd h1' h1
        · exact hseq
  · intro h; simp only [IndexValue.new, if_pos h]
  · intro h; simp only [IndexValue.new, if_neg (by omega : ¬ s1.length ≤ 16)]

/-- Closed instantiation of `indexValue_new_eq_iff` discharging each
hypothesis at a concrete stream (one short, one 17 bytes long). -/
theorem indexValue_new_eq_iff_witness :
    ((1 : Nat) ≤ 16 ∧
      IndexValue.new [(1 : Byte)] = .Fixed (fromLEBytes (padTo16 [(1 : Byte)]))) ∧
    (16 < (List.replicate 17 (0 : Byte)).length ∧
      IndexValue.new (List.replicate 17 (0 : Byte)) = .Variable (List.replicate 17 (0 : Byte))) :=
  ⟨⟨by decide, (indexValue_new_eq_iff [(1 : Byte)] []).2.1 (by decide)⟩,
   ⟨by decide, (indexValue_new_eq_iff (List.replicate 17 (0 : Byte)) []).2.2 (by decide)⟩⟩

/-- Claim C6, counterexample: the empty stream and the single zero byte
produce the same key `Fixed 0`, yet the streams differ — so "equal keys
iff equal serialized byte streams" is false. -/
theorem indexValue_new_not_injective :
    IndexValue.new [] = IndexValue.new [(0 : Byte)] ∧
    ([] : List Byte) ≠ [(0 : Byte)] := by decide

/-! ### The empty query (C3) -/

/-- Claim C3 (amended): `match_entity(e, ())` is true for every entity in
every state, but `query_entities(())` returns the empty vector regardless
of `entity_count` — the unit instance's `execute_query` body accumulates
nothing (`src/entity/query.rs:34`). -/
theorem emptyQuery_behavior (meta : PropMetaF) (s : EntityData) :
    queryEntities meta s [] = .ok (s, []) ∧
    ∀ e, (matchEntity meta s [] e).2 = true :=
  ⟨rfl, fun _ => rfl⟩

/-- Claim C3, counterexample: in a state with one live entity, entity 0
satisfies the empty query by `match_entity` yet is absent from
`query_entities(())` — so the empty query does not return every id in
`[0, entity_count)`. -/
theorem emptyQuery_misses_live_entity :
    sOne.entity_count = 1 ∧
    (queryEntities metaPlain sOne []).toOption.map (fun r => r.2.contains 0) = some false ∧
    (matchEntity metaPlain sOne [] 0).2 = true := by decide

/-! ### Count equals length (C4) -/

theorem foldl_count_eq_length_aux (cands : List Nat) (g : Nat → Bool) :
    ∀ (c : Nat) (l : List Nat), l.length = c →
      cands.foldl (fun acc e => if g e then acc + 1 else acc) c =
      (cands.foldl (fun acc e => if g e then acc ++ [e] else acc) l).length := by
  induction cands with
  | nil => intro c l h; simpa using h.symm
  | cons x rest ih =>
    intro c l h
    simp only [List.foldl_cons]
    by_cases hg : g x
    · rw [if_pos hg, if_pos hg]
      exact ih (c + 1) (l ++ [x]) (by simp [h])
    · rw [if_neg hg, if_neg hg]
      exact ih c l h

theorem executeQueryAcc_count_eq_length (s : EntityData) (q : QueryL) :
    executeQueryAcc s q (fun c _ => c + 1) 0 =
      (executeQueryAcc s q (fun l e => l ++ [e]) []).length := by
  unfold executeQueryAcc
  cases q with
  | nil => rfl
  | cons hd tl =>
    cases hp : collectProbes s (hd :: tl) with
    | none => rfl
    | some pr =>
      obtain ⟨idxs, unidx⟩ := pr
      simp only []
      exact foldl_count_eq_length_aux _ _ 0 [] rfl

/-- Claim C4 (confirmed): for every state and query,
`query_entity_count(q)` equals the length of the vector returned by
`query_entities(q)` on the same state (the two runs also agree on the
post-setup state). -/
theorem query_count_eq_length (meta : PropMetaF) (s : EntityData) (q : QueryL) :
    queryEntityCount meta s q =
      (queryEntities meta s q).map (fun r => (r.1, r.2.length)) := by
  unfold queryEntityCount queryEntities
  cases hs : querySetup meta s q with
  | error e => rfl
  | ok s' =>
    simp only [Except.map]
    rw [executeQueryAcc_count_eq_length]

/-! ### Association-list and column lemmas -/

theorem alookup_aupdate_self {κ α : Type} [DecidableEq κ]
    (m : List (κ × α)) (k : κ) (v : α) : alookup (aupdate m k v) k = some v := by
  induction m with
  | nil => simp [aupdate, alookup]
  | cons kv rest ih =>
    by_cases h : kv.1 = k
    · simp [aupdate, alookup, h]
    · simp only [aupdate, alookup]
      rw [if_neg h]
      simp only [alookup]
      rw [if_neg h]
      exact ih

theorem alookup_aupdate_ne {κ α : Type} [DecidableEq κ]
    (m : List (κ × α)) (k k' : κ) (v : α) (h : k' ≠ k) :
    alookup (aupdate m k v) k' = alookup m k' := by
  induction m with
  | nil =>
    simp only [aupdate, alookup]
    rw [if_neg (fun hh => h hh.symm)]
  | cons kv rest ih =>
    by_cases hk : kv.1 = k
    · simp only [aupdate]
      rw [if_pos hk]
      simp only [alookup]
      rw [if_neg (by rw [hk]; exact fun hh => h hh.symm), if_neg (by rw [hk]; exact fun hh => h hh.symm)]
    · simp only [aupdate]
      rw [if_neg hk]
      simp only [alookup]
      by_cases hk' : kv.1 = k'
      · rw [if_pos hk', if_pos hk']
      · rw [if_neg hk', if_neg hk']
        exact ih

theorem growWrite_length (l : List (Option Val)) (e : Nat) (v : Val) :
    (growWrite l e v).length = max l.length (e + 1) := by
  unfold growWrite
  by_cases h : e < l.length
  · rw [if_pos h, List.length_set]
    omega
  · rw [if_neg h, List.length_set]
    simp only [List.length_append, List.length_replicate]
    omega

theorem growWrite_getD_self (l : List (Option Val)) (e : Nat) (v : Val) :
    (growWrite l e v).getD e none = some v := by
  unfold growWrite
  rw [List.getD_eq_getElem?_getD]
  by_cases h : e < l.length
  · rw [if_pos h, List.getElem?_set_self h]
    rfl
  · rw [if_neg h, List.getElem?_set_self
      (by simp only [List.length_append, List.length_replicate]; omega)]
    rfl

theorem growWrite_getD_other (l : List (Option Val)) (e : Nat) (v : Val)
    (j : Nat) (h : j ≠ e) :
    (growWrite l e v).getD j none = l.getD j none := by
  unfold growWrite
  rw [List.getD_eq_getElem?_getD, List.getD_eq_getElem?_getD,
    List.getElem?_set_ne (fun hh => h hh.symm)]
  by_cases hl : e < l.length
  · rw [if_pos hl]
  · rw [if_neg hl]
    by_cases hj : j < l.length
    · rw [List.getElem?_append_left hj]
    · rw [List.getElem?_append_right (by omega), List.getElem?_replicate]
      rw [List.getElem?_eq_none (by omega)]
      by_cases hr : j - l.length < e + 1 - l.length
      · rw [if_pos hr]
        rfl
      · rw [if_neg hr]

/-- `get_property_ref` through the default-store view used by
`get_container_mut`. -/
theorem get_property_ref_eq_getD (s : EntityData) (p e : Nat) :
    s.get_property_ref p e =
      ((alookup s.properties_map p).getD PropertyStore.new).values.getD e none := by
  unfold EntityData.get_property_ref
  cases alookup s.properties_map p with
  | none => rfl
  | some store => rfl

/-! ### set_property (C10) -/

/-- Claim C10 (confirmed): for non-derived `T`, `set_property(id, v)`
succeeds for every id — including ids at or beyond `entity_count`, there
is no bounds check — growing `T`'s column with `None` fills to length
`id + 1` when needed, writing `Some v` at position `id`, and leaving
`entity_count`, the registration metadata, the indexes, every other
property's column, and every other slot of `T`'s column unchanged. -/
theorem set_property_spec (meta : PropMetaF) (s : EntityData) (p e : Nat) (v : Val)
    (hnd : (meta p).is_derived = false) :
    ∃ s', EntityData.set_property meta s p e v = some s' ∧
      s'.entity_count = s.entity_count ∧
      s'.property_metadata = s.property_metadata ∧
      s'.registered_derived_properties = s.registered_derived_properties ∧
      s'.property_indexes = s.property_indexes ∧
      (∀ q, q ≠ p → alookup s'.properties_map q = alookup s.properties_map q) ∧
      s'.get_property_ref p e = some v ∧
      (∀ j, j ≠ e → s'.get_property_ref p j = s.get_property_ref p j) ∧
      (∀ st, alookup s'.properties_map p = some st →
        st.values.length =
          max ((alookup s.properties_map p).getD PropertyStore.new).values.length (e + 1)) := by
  unfold EntityData.set_property
  rw [hnd]
  simp only [Bool.false_eq_true, if_false]
  refine ⟨_, rfl, rfl, rfl, rfl, rfl, ?_, ?_, ?_, ?_⟩
  · intro q hq
    exact alookup_aupdate_ne _ _ _ _ hq
  · rw [get_property_ref_eq_getD]
    simp only [alookup_aupdate_self, Option.getD_some]
    exact growWrite_getD_self _ _ _
  · intro j hj
    rw [get_property_ref_eq_getD, get_property_ref_eq_getD]
    simp only [alookup_aupdate_self, Option.getD_some]
    exact growWrite_getD_other _ _ _ _ hj
  · intro st hst
    rw [alookup_aupdate_self] at hst
    cases hst
    exact growWrite_length _ _ _

/-- Closed instantiation of `set_property_spec`: writing property 0 of the
fresh table at entity 5 (beyond the live population of 0) succeeds. -/
theorem set_property_spec_witness :
    (metaPlain 0).is_derived = false ∧
    ∃ s', EntityData.set_property metaPlain EntityData.default 0 5 v1 = some s' ∧
      s'.entity_count = EntityData.default.entity_count ∧
      s'.property_metadata = EntityData.default.property_metadata ∧
      s'.registered_derived_properties = EntityData.default.registered_derived_properties ∧
      s'.property_indexes = EntityData.default.property_indexes ∧
      (∀ q, q ≠ 0 → alookup s'.properties_map q = alookup EntityData.default.properties_map q) ∧
      s'.get_property_ref 0 5 = some v1 ∧
      (∀ j, j ≠ 5 → s'.get_property_ref 0 j = EntityData.default.get_property_ref 0 j) ∧
      (∀ st, alookup s'.properties_map 0 = some st →
        st.values.length =
          max ((alookup EntityData.default.properties_map 0).getD PropertyStore.new).values.length 6) :=
  ⟨rfl, set_property_spec metaPlain EntityData.default 0 5 v1 rfl⟩

/-! ### add_entity and required properties (C5) -/

theorem checkList_error_iff (init : InitList) (l : List PropertyInfo) :
    (∃ err, checkList init l = .error err) ↔
      ∃ info ∈ l, info.is_required = true ∧ hasProperty init info.type_id = false := by
  induction l with
  | nil =>
    constructor
    · rintro ⟨err, h⟩; simp [checkList] at h
    · rintro ⟨info, hin, _⟩; simp at hin
  | cons info rest ih =>
    unfold checkList
    by_cases hc : (info.is_required && !hasProperty init info.type_id) = true
    · rw [if_pos hc]
      simp only [Bool.and_eq_true, Bool.not_eq_true'] at hc
      constructor
      · intro _
        exact ⟨info, List.mem_cons_self _ _, hc.1, hc.2⟩
      · intro _
        exact ⟨_, rfl⟩
    · rw [if_neg hc]
      simp only [Bool.and_eq_true, Bool.not_eq_true'] at hc
      constructor
      · intro h
        obtain ⟨i, hin, hreq, habs⟩ := ih.1 h
        exact ⟨i, List.mem_cons_of_mem _ hin, hreq, habs⟩
      · rintro ⟨i, hin, hreq, habs⟩
        cases List.mem_cons.1 hin with
        | inl heq =>
          subst heq
          exact absurd ⟨hreq, habs⟩ hc
        | inr hmem => exact ih.2 ⟨i, hmem, hreq, habs⟩

theorem checkList_error_form (init : InitList) (l : List PropertyInfo) (err : IxaError) :
    checkList init l = .error err →
      ∃ info ∈ l, info.is_required = true ∧ hasProperty init info.type_id = false ∧
        err = .ixaError ("Missing initial value " ++ info.name) := by
  induction l with
  | nil => intro h; simp [checkList] at h
  | cons info rest ih =>
    unfold checkList
    by_cases hc : (info.is_required && !hasProperty init info.type_id) = true
    · rw [if_pos hc]
      simp only [Bool.and_eq_true, Bool.not_eq_true'] at hc
      intro h
      cases h
      exact ⟨info, List.mem_cons_self _ _, hc.1, hc.2, rfl⟩
    · rw [if_neg hc]
      intro h
      obtain ⟨i, hin, hreq, habs, herr⟩ := ih h
      exact ⟨i, List.mem_cons_of_mem _ hin, hreq, habs, herr⟩

/-- Claim C5 (confirmed): `add_entity(list)` returns a recoverable
"Missing initial value" error iff some property whose registered metadata
says `is_required` is absent from the initialization list; and in the
error case the returned table is exactly the input table — no id is
allocated and no column is written. -/
theorem add_entity_missing_required (meta : PropMetaF) (s : EntityData) (init : InitList) :
    ((∃ err, addEntityC meta s init = some (s, .error err)) ↔
      ∃ info ∈ s.property_metadata,
        info.is_required = true ∧ hasProperty init info.type_id = false) ∧
    (∀ s' err, addEntityC meta s init = some (s', .error err) →
      s' = s ∧ ∃ info ∈ s.property_metadata,
        info.is_required = true ∧ hasProperty init info.type_id = false ∧
        err = .ixaError ("Missing initial value " ++ info.name)) := by
  have hshape : ∀ s' err, addEntityC meta s init = some (s', .error err) →
      s' = s ∧ checkList init s.property_metadata = .error err := by
    intro s' err hadd
    unfold addEntityC at hadd
    cases hc : checkList init s.property_metadata with
    | error e =>
      rw [hc] at hadd
      injection hadd with h1
      injection h1 with hA hB
      injection hB with hE
      exact ⟨hA.symm, by rw [hE]⟩
    | ok u =>
      rw [hc] at hadd
      cases hsp : setProperties meta init
          { s with entity_count := s.entity_count + 1, is_initializing := true }
          s.entity_count with
      | none => rw [hsp] at hadd; cases hadd
      | some s2 =>
        rw [hsp] at hadd
        injection hadd with h1
        injection h1 with hA hB
        cases hB
  constructor
  · constructor
    · rintro ⟨err, hadd⟩
      obtain ⟨info, hin, hreq, habs, _⟩ :=
        checkList_error_form init _ err (hshape s err hadd).2
      exact ⟨info, hin, hreq, habs⟩
    · rintro ⟨info, hin, hreq, habs⟩
      obtain ⟨err, hce⟩ := (checkList_error_iff init s.property_metadata).2 ⟨info, hin, hreq, habs⟩
      refine ⟨err, ?_⟩
      unfold addEntityC
      rw [hce]
  · intro s' err hadd
    obtain ⟨hs, hce⟩ := hshape s' err hadd
    obtain ⟨info, hin, hreq, habs, herr⟩ := checkList_error_form init _ err hce
    exact ⟨hs, info, hin, hreq, habs, herr⟩

/-- Closed instantiation of `add_entity_missing_required`: after the
required property `Name` is registered, `add_entity(())` fails and leaves
the table unchanged. -/
theorem add_entity_missing_required_witness :
    (∃ err, addEntityC metaReq tReg [] = some (tReg, .error err)) ∧
    (tReg = tReg ∧ ∃ info ∈ tReg.property_metadata,
      info.is_required = true ∧ hasProperty [] info.type_id = false ∧
      IxaError.ixaError ("Missing initial value " ++ info.name) =
        .ixaError ("Missing initial value " ++ info.name)) :=
  ⟨(add_entity_missing_required metaReq tReg []).1.2
      ⟨{ name := "Name", type_id := 9, is_required := true, is_derived := false },
        by decide, rfl, by decide⟩,
   ⟨rfl, by
      obtain ⟨h1, ⟨info, hin, hreq, habs, _⟩⟩ :=
        (add_entity_missing_required metaReq tReg []).2 tReg
          (.ixaError "Missing initial value Name") (by decide)
      exact ⟨info, hin, hreq, habs, rfl⟩⟩⟩

/-! ### Lazy indexing (C7, C8) -/

theorem mem_hsInsert_self (s : List Nat) (e : Nat) : e ∈ hsInsert s e := by
  unfold hsInsert
  by_cases h : e ∈ s
  · rw [if_pos h]; exact h
  · rw [if_neg h]; exact List.mem_append.2 (Or.inr (List.mem_singleton.2 rfl))

theorem mem_hsInsert_of_mem (s : List Nat) (e x : Nat) (h : x ∈ s) : x ∈ hsInsert s e := by
  unfold hsInsert
  by_cases he : e ∈ s
  · rw [if_pos he]; exact h
  · rw [if_neg he]; exact List.mem_append.2 (Or.inl h)

theorem alookup_append_absent {κ α : Type} [DecidableEq κ]
    (m : List (κ × α)) (k : κ) (v : α) (hb : alookup m k = none) :
    alookup (m ++ [(k, v)]) k = some v := by
  induction m with
  | nil => simp [alookup]
  | cons kv rest ih =>
    simp only [alookup, List.cons_append] at hb ⊢
    by_cases hk : kv.1 = k
    · rw [if_pos hk] at hb; cases hb
    · rw [if_neg hk] at hb ⊢
      exact ih hb

theorem alookup_append_other {κ α : Type} [DecidableEq κ]
    (m : List (κ × α)) (k k' : κ) (v : α) (hne : k' ≠ k) :
    alookup (m ++ [(k, v)]) k' = alookup m k' := by
  induction m with
  | nil =>
    simp only [List.nil_append, alookup]
    rw [if_neg (fun hh => hne hh.symm)]
  | cons kv rest ih =>
    simp only [alookup, List.cons_append]
    by_cases hk : kv.1 = k'
    · rw [if_pos hk, if_pos hk]
    · rw [if_neg hk, if_neg hk]
      exact ih

theorem mem_bucketAdd_self (m : List (IndexValue × List Nat)) (iv : IndexValue) (e : Nat) :
    e ∈ (alookup (bucketAdd m iv e) iv).getD [] := by
  unfold bucketAdd
  cases hb : alookup m iv with
  | some bucket =>
    rw [alookup_aupdate_self]
    exact mem_hsInsert_self _ _
  | none =>
    rw [alookup_append_absent m iv _ hb]
    exact mem_hsInsert_self _ _

theorem mem_bucketAdd_of_mem (m : List (IndexValue × List Nat)) (iv iv' : IndexValue)
    (e e' : Nat) (h : e ∈ (alookup m iv).getD []) :
    e ∈ (alookup (bucketAdd m iv' e') iv).getD [] := by
  unfold bucketAdd
  cases hb : alookup m iv' with
  | some bucket =>
    by_cases hiv : iv = iv'
    · subst hiv
      rw [alookup_aupdate_self]
      rw [hb] at h
      exact mem_hsInsert_of_mem _ _ _ h
    · rw [alookup_aupdate_ne _ _ _ _ hiv]
      exact h
  | none =>
    have hne : iv ≠ iv' := by
      intro heq
      subst heq
      rw [hb] at h
      simp at h
    rw [alookup_append_other m iv' iv _ hne]
    exact h

theorem inBucket_insertEntry_self (ix : Index) (e : Nat) (iv : IndexValue)
    (hS : ix.lookup.isSome = true) :
    inBucket (ix.insertEntry e iv) iv e = true := by
  unfold Index.insertEntry inBucket
  cases hl : ix.lookup with
  | none => rw [hl] at hS; cases hS
  | some m =>
    simp only []
    exact List.elem_iff.2 (mem_bucketAdd_self m iv e)

theorem inBucket_insertEntry_of (ix : Index) (e e' : Nat) (iv iv' : IndexValue)
    (h : inBucket ix iv e = true) :
    inBucket (ix.insertEntry e' iv') iv e = true := by
  unfold Index.insertEntry inBucket at *
  cases hl : ix.lookup with
  | none => rw [hl] at h; cases h
  | some m =>
    rw [hl] at h
    simp only []
    exact List.elem_iff.2 (mem_bucketAdd_of_mem m iv iv' e e' (List.elem_iff.1 h))

theorem insertEntry_fields (ix : Index) (e : Nat) (iv : IndexValue) :
    (ix.insertEntry e iv).max_indexed = ix.max_indexed ∧
    (ix.insertEntry e iv).lookup.isSome = ix.lookup.isSome := by
  unfold Index.insertEntry
  cases hL : ix.lookup with
  | none => exact ⟨rfl, by rw [hL]⟩
  | some m => exact ⟨rfl, rfl⟩

theorem indexLoop_ok_spec (meta : PropMetaF) (s : EntityData) (p : Nat) :
    ∀ (ids : List Nat) (ix ix' : Index), indexLoop meta s p ids ix = .ok ix' →
      (∀ iv e, inBucket ix iv e = true → inBucket ix' iv e = true) ∧
      (ix.lookup.isSome = true →
        ∀ id ∈ ids, ∀ v, computeP meta s p id = some v →
          inBucket ix' (IndexValue.new v) id = true) ∧
      ix'.lookup.isSome = ix.lookup.isSome ∧
      ix'.max_indexed = ix.max_indexed := by
  intro ids
  induction ids with
  | nil =>
    intro ix ix' h
    cases h
    exact ⟨fun _ _ hh => hh, fun _ id hid => absurd hid (List.not_mem_nil id), rfl, rfl⟩
  | cons id rest ih =>
    intro ix ix' h
    unfold indexLoop at h
    cases hc : computeP meta s p id with
    | none => rw [hc] at h; cases h
    | some v =>
      rw [hc] at h
      obtain ⟨hmono, hadd, hsome, hmax⟩ := ih (ix.insertEntry id (IndexValue.new v)) ix' h
      obtain ⟨hmax', hsome'⟩ := insertEntry_fields ix id (IndexValue.new v)
      refine ⟨?_, ?_, by rw [hsome, hsome'], by rw [hmax, hmax']⟩
      · intro iv e he
        exact hmono iv e (inBucket_insertEntry_of ix e id iv (IndexValue.new v) he)
      · intro hS id' hid' v' hv'
        cases List.mem_cons.1 hid' with
        | inl heq =>
          have h2 := hmono _ _ (inBucket_insertEntry_self ix id (IndexValue.new v) hS)
          have hvv : v' = v := by
            rw [heq, hc] at hv'
            exact (Option.some.inj hv').symm
          rw [heq, hvv]
          exact h2
        | inr hmem =>
          exact hadd (by rw [hsome', hS]) id' hmem v' hv'

theorem indexLoop_error_iff (meta : PropMetaF) (s : EntityData) (p : Nat) :
    ∀ (ids : List Nat) (ix : Index),
      (∃ err, indexLoop meta s p ids ix = .error err) ↔
        ∃ id ∈ ids, computeP meta s p id = none := by
  intro ids
  induction ids with
  | nil =>
    intro ix
    constructor
    · rintro ⟨err, h⟩; cases h
    · rintro ⟨id, hid, _⟩; exact absurd hid (List.not_mem_nil id)
  | cons id rest ih =>
    intro ix
    unfold indexLoop
    cases hc : computeP meta s p id with
    | none =>
      constructor
      · intro _; exact ⟨id, List.mem_cons_self _ _, hc⟩
      · intro _; exact ⟨_, rfl⟩
    | some v =>
      constructor
      · intro h
        obtain ⟨id', hid', hcn⟩ := (ih _).1 h
        exact ⟨id', List.mem_cons_of_mem _ hid', hcn⟩
      · rintro ⟨id', hid', hcn⟩
        cases List.mem_cons.1 hid' with
        | inl heq => subst heq; rw [hcn] at hc; cases hc
        | inr hmem => exact (ih _).2 ⟨id', hmem, hcn⟩

theorem indexLoop_error_form (meta : PropMetaF) (s : EntityData) (p : Nat) :
    ∀ (ids : List Nat) (ix : Index) (e : Nat) (nm : String),
      indexLoop meta s p ids ix = .error (.missingIndexValue e nm) →
        nm = (meta p).name ∧ e ∈ ids ∧ computeP meta s p e = none := by
  intro ids
  induction ids with
  | nil => intro ix e nm h; cases h
  | cons id rest ih =>
    intro ix e nm h
    unfold indexLoop at h
    cases hc : computeP meta s p id with
    | none =>
      rw [hc] at h
      injection h with h1
      injection h1 with hE hN
      subst hE; subst hN
      exact ⟨rfl, List.mem_cons_self _ _, hc⟩
    | some v =>
      rw [hc] at h
      obtain ⟨hnm, hmem, hcn⟩ := ih _ e nm h
      exact ⟨hnm, List.mem_cons_of_mem _ hmem, hcn⟩

/-- Claim C7 (confirmed): with `T`'s index enabled (`lookup = Some`),
`index_unindexed_entities` panics iff some id in
`[max_indexed, entity_count)` has no value for `T`, and the panic's
diagnostic names an offending entity and the property. -/
theorem index_unindexed_panic_iff (meta : PropMetaF) (s : EntityData) (p : Nat)
    (ix : Index) (m : List (IndexValue × List Nat)) (hS : ix.lookup = some m) :
    ((∃ err, indexUnindexed meta s p ix = .error err) ↔
      ∃ id, ix.max_indexed ≤ id ∧ id < s.entity_count ∧ computeP meta s p id = none)
    ∧ (∀ e nm, indexUnindexed meta s p ix = .error (.missingIndexValue e nm) →
        nm = (meta p).name ∧ ix.max_indexed ≤ e ∧ e < s.entity_count ∧
          computeP meta s p e = none) := by
  have hrange : ∀ id : Nat,
      id ∈ List.range' ix.max_indexed (s.entity_count - ix.max_indexed) ↔
        ix.max_indexed ≤ id ∧ id < s.entity_count := by
    intro id
    rw [List.mem_range'_1]
    omega
  constructor
  · unfold indexUnindexed
    rw [hS]
    simp only []
    constructor
    · rintro ⟨err, herr⟩
      cases hl : indexLoop meta s p
          (List.range' ix.max_indexed (s.entity_count - ix.max_indexed)) ix with
      | error e2 =>
        obtain ⟨id, hid, hcn⟩ := (indexLoop_error_iff meta s p _ ix).1 ⟨e2, hl⟩
        exact ⟨id, ((hrange id).1 hid).1, ((hrange id).1 hid).2, hcn⟩
      | ok ixr => rw [hl] at herr; cases herr
    · rintro ⟨id, hle, hlt, hcn⟩
      obtain ⟨err, herr⟩ := (indexLoop_error_iff meta s p _ ix).2
        ⟨id, (hrange id).2 ⟨hle, hlt⟩, hcn⟩
      exact ⟨err, by rw [herr]; rfl⟩
  · intro e nm herr
    unfold indexUnindexed at herr
    rw [hS] at herr
    cases hl : indexLoop meta s p
        (List.range' ix.max_indexed (s.entity_count - ix.max_indexed)) ix with
    | error e2 =>
      rw [hl] at herr
      injection herr with h1
      subst h1
      obtain ⟨hnm, hmem, hcn⟩ := indexLoop_error_form meta s p _ ix e nm hl
      exact ⟨hnm, ((hrange e).1 hmem).1, ((hrange e).1 hmem).2, hcn⟩
    | ok ixr => rw [hl] at herr; cases herr

/-- Closed instantiation of `index_unindexed_panic_iff`: reindexing the
state in which entity 0 was created with no value for the enabled,
required property 9 panics, naming entity 0 and the property name. -/
theorem index_unindexed_panic_iff_witness :
    ((∃ err, indexUnindexed metaReq tReg 9
        { lookup := some [], max_indexed := 0 } = .error err) ↔
      ∃ id, 0 ≤ id ∧ id < tReg.entity_count ∧ computeP metaReq tReg 9 id = none) ∧
    (∃ err, indexUnindexed metaReq tReg 9
        { lookup := some [], max_indexed := 0 } = .error err) :=
  ⟨(index_unindexed_panic_iff metaReq tReg 9 { lookup := some [], max_indexed := 0 } [] rfl).1,
   (index_unindexed_panic_iff metaReq tReg 9 { lookup := some [], max_indexed := 0 } [] rfl).1.2
     ⟨0, Nat.le_refl 0, by decide, by decide⟩⟩

/-- Claim C8 (confirmed): `index_unindexed_entities` is a no-op when
`lookup` is `None` (the whole index, `max_indexed` included, is returned
unchanged); when `lookup` is `Some` and every id in
`[max_indexed, entity_count)` has a value for `T`, it succeeds, files each
such id under the key of its value, and sets `max_indexed` to
`entity_count`. -/
theorem index_unindexed_spec (meta : PropMetaF) (s : EntityData) (p : Nat) (ix : Index) :
    (ix.lookup = none → indexUnindexed meta s p ix = .ok ix)
    ∧ (∀ m, ix.lookup = some m →
        (∀ id, ix.max_indexed ≤ id → id < s.entity_count →
          computeP meta s p id ≠ none) →
        ∃ ix', indexUnindexed meta s p ix = .ok ix' ∧
          ix'.max_indexed = s.entity_count ∧
          ix'.lookup.isSome = true ∧
          ∀ id v, ix.max_indexed ≤ id → id < s.entity_count →
            computeP meta s p id = some v →
            inBucket ix' (IndexValue.new v) id = true) := by
  constructor
  · intro hN
    unfold indexUnindexed
    rw [hN]
  · intro m hS hall
    unfold indexUnindexed
    rw [hS]
    cases hl : indexLoop meta s p
        (List.range' ix.max_indexed (s.entity_count - ix.max_indexed)) ix with
    | error err =>
      obtain ⟨id, hid, hcn⟩ := (indexLoop_error_iff meta s p _ ix).1 ⟨err, hl⟩
      rw [List.mem_range'_1] at hid
      exact absurd hcn (hall id hid.1 (by omega))
    | ok ixr =>
      obtain ⟨hmono, hadd, hsome, hmax⟩ := indexLoop_ok_spec meta s p _ ix ixr hl
      refine ⟨{ ixr with max_indexed := s.entity_count }, rfl, rfl, ?_, ?_⟩
      · show ixr.lookup.isSome = true
        rw [hsome, hS]
        rfl
      · intro id v hle hlt hcv
        have hmem : id ∈ List.range' ix.max_indexed (s.entity_count - ix.max_indexed) := by
          rw [List.mem_range'_1]
          omega
        have := hadd (by rw [hS]; rfl) id hmem v hcv
        unfold inBucket at this ⊢
        cases hxl : ixr.lookup with
        | none => rw [hxl] at this; cases this
        | some mm => rw [hxl] at this; exact this

/-- Closed instantiation of `index_unindexed_spec` on the stale-state
index: disabled indexes are untouched, and entity 0 (value `v2`) would be
filed under `key(v2)` by a fresh enabled index. -/
theorem index_unindexed_spec_witness :
    indexUnindexed metaPlain sSet 0 Index.new = .ok Index.new ∧
    ∃ ix', indexUnindexed metaPlain sSet 0 { lookup := some [], max_indexed := 0 } = .ok ix' ∧
      ix'.max_indexed = sSet.entity_count ∧
      ix'.lookup.isSome = true ∧
      ∀ id v, 0 ≤ id → id < sSet.entity_count →
        computeP metaPlain sSet 0 id = some v →
        inBucket ix' (IndexValue.new v) id = true :=
  ⟨(index_unindexed_spec metaPlain sSet 0 Index.new).1 rfl,
   (index_unindexed_spec metaPlain sSet 0 { lookup := some [], max_indexed := 0 }).2 [] rfl
     (by
       intro id h1 h2
       have hc : sSet.entity_count = 1 := by decide
       rw [hc] at h2
       have hz : id = 0 := by omega
       subst hz
       decide)⟩

/-! ### Stale indexes after set_property (C1, C2) -/

/-- Claim C1: the code violates P5.  Trace: enable the index for property
0, `add_entity((P0 = v1,))`, run `query_entities((P0, v1))` (which lazily
files entity 0 under `key(v1)`), then `set_property(0, P0 = v2)`.  The
setter never removes the stale bucket entry, so the next
`query_entities((P0, v1))` still returns entity 0 while
`match_entity(0, (P0, v1))` is false — `e ∈ query_entities(q)` and
`match_entity(e, q)` disagree at `e = 0 < entity_count = 1`. -/
theorem query_entities_match_entity_divergence :
    indexProperty metaPlain EntityData.default 0 = sIdx ∧
    addEntityC metaPlain sIdx [(0, v1)] = some (sAdd, .ok 0) ∧
    queryEntities metaPlain sAdd [(0, v1)] = .ok (sQ1, [0]) ∧
    EntityData.set_property metaPlain sQ1 0 0 v2 = some sSet ∧
    sSet.entity_count = 1 ∧
    (queryEntities metaPlain sSet [(0, v1)]).toOption.map (fun r => r.2.contains 0) = some true ∧
    (matchEntity metaPlain sSet [(0, v1)] 0).2 = false := by decide

/-- Claim C2: the code violates the coherence invariant.  In the state of
the same trace, the index of property 0 is enabled with
`max_indexed = entity_count = 1`, entity `0 < max_indexed` currently has
value `v2`, yet it is absent from `lookup[key(v2)]` (it sits only in the
stale `lookup[key(v1)]` bucket). -/
theorem index_coherence_violation :
    EntityData.set_property metaPlain sQ1 0 0 v2 = some sSet ∧
    alookup sSet.property_indexes 0 = some ixStale ∧
    ixStale.lookup.isSome = true ∧
    ixStale.max_indexed = 1 ∧
    sSet.entity_count = 1 ∧
    computeP metaPlain sSet 0 0 = some v2 ∧
    inBucket ixStale (IndexValue.new v2) 0 = false ∧
    inBucket ixStale (IndexValue.new v1) 0 = true := by decide

/-! ### The required-property invariant (C9) -/

/-- The invariant of claim C9: every property whose registered metadata
says `is_required` has a value for every live entity. -/
def RequiredInv (s : EntityData) : Prop :=
  ∀ info ∈ s.property_metadata, info.is_required = true →
    ∀ e, e < s.entity_count → (s.get_property_ref info.type_id e).isSome = true

/-- Claim C9, counterexample: the state reached by `add_entity(())`
followed by `get_property::<Name>(0)` — which registers the required
property after an entity already lives — violates the invariant. -/
theorem required_inv_violated_reachable :
    Reach metaReq EntityData.default tReg ∧
    ∃ info ∈ tReg.property_metadata, info.is_required = true ∧
      0 < tReg.entity_count ∧ (tReg.get_property_ref info.type_id 0).isSome = false :=
  ⟨Reach.tail _ _ _
      (Reach.tail _ _ _ (Reach.refl _)
        (Step.add EntityData.default [] tAdd (.ok 0) (by decide)))
      (Step.getP tAdd 9 0),
   ⟨{ name := "Name", type_id := 9, is_required := true, is_derived := false },
     by decide, rfl, by decide, by decide⟩⟩

/-- The registration-discipline guard for the amended C9: a property may
be registered only if it is not required, already registered, or the
population is still empty. -/
def RegGuard (meta : PropMetaF) (s : EntityData) (p : Nat) : Prop :=
  (meta p).is_required = true →
    p ∈ s.registered_derived_properties ∨ s.entity_count = 0

theorem requiredInv_congr (s s' : EntityData)
    (hm : s'.properties_map = s.properties_map)
    (hmd : s'.property_metadata = s.property_metadata)
    (hc : s'.entity_count = s.entity_count)
    (hInv : RequiredInv s) : RequiredInv s' := by
  intro info hin hreq e he
  rw [get_property_ref_eq_getD, hm, ← get_property_ref_eq_getD]
  rw [hmd] at hin
  rw [hc] at he
  exact hInv info hin hreq e he

theorem set_property_mono (meta : PropMetaF) (s : EntityData) (p e : Nat) (v : Val)
    (s' : EntityData) (h : EntityData.set_property meta s p e v = some s') :
    s'.entity_count = s.entity_count ∧
    s'.property_metadata = s.property_metadata ∧
    ∀ q j, (s.get_property_ref q j).isSome = true →
      (s'.get_property_ref q j).isSome = true := by
  unfold EntityData.set_property at h
  by_cases hd : (meta p).is_derived
  · rw [if_pos hd] at h; cases h
  · rw [if_neg hd] at h
    injection h with h1
    subst h1
    refine ⟨rfl, rfl, ?_⟩
    intro q j hq
    by_cases hpq : q = p
    · subst hpq
      rw [get_property_ref_eq_getD] at hq ⊢
      simp only [alookup_aupdate_self, Option.getD_some]
      by_cases hje : j = e
      · subst hje
        rw [growWrite_getD_self]
        rfl
      · rw [growWrite_getD_other _ _ _ _ hje]
        exact hq
    · rw [get_property_ref_eq_getD] at hq ⊢
      rw [alookup_aupdate_ne _ _ _ _ hpq]
      exact hq

theorem set_property_establishes (meta : PropMetaF) (s : EntityData) (p e : Nat) (v : Val)
    (s' : EntityData) (h : EntityData.set_property meta s p e v = some s') :
    (s'.get_property_ref p e).isSome = true := by
  unfold EntityData.set_property at h
  by_cases hd : (meta p).is_derived
  · rw [if_pos hd] at h; cases h
  · rw [if_neg hd] at h
    injection h with h1
    subst h1
    rw [get_property_ref_eq_getD]
    simp only [alookup_aupdate_self, Option.getD_some]
    rw [growWrite_getD_self]
    rfl

theorem set_property_inv (meta : PropMetaF) (s : EntityData) (p e : Nat) (v : Val)
    (s' : EntityData) (h : EntityData.set_property meta s p e v = some s')
    (hInv : RequiredInv s) : RequiredInv s' := by
  obtain ⟨hc, hmd, hmono⟩ := set_property_mono meta s p e v s' h
  intro info hin hreq e' he'
  rw [hmd] at hin
  rw [hc] at he'
  exact hmono _ _ (hInv info hin hreq e' he')

theorem setProperties_spec (meta : PropMetaF) (e : Nat) :
    ∀ (init : InitList) (s s' : EntityData), setProperties meta init s e = some s' →
      s'.entity_count = s.entity_count ∧
      s'.property_metadata = s.property_metadata ∧
      (∀ q j, (s.get_property_ref q j).isSome = true →
        (s'.get_property_ref q j).isSome = true) ∧
      (∀ p, hasProperty init p = true → (s'.get_property_ref p e).isSome = true) := by
  intro init
  induction init with
  | nil =>
    intro s s' h
    unfold setProperties at h
    rw [List.foldlM_nil] at h
    injection h with h1
    subst h1
    exact ⟨rfl, rfl, fun _ _ hq => hq, fun p hp => by simp [hasProperty] at hp⟩
  | cons pv rest ih =>
    intro s s' h
    unfold setProperties at h
    rw [List.foldlM_cons] at h
    cases hset : EntityData.set_property meta s pv.1 e pv.2 with
    | none => rw [hset] at h; cases h
    | some s1 =>
      rw [hset] at h
      have hrest : setProperties meta rest s1 e = some s' := h
      obtain ⟨hc, hmd, hmono, hhas⟩ := ih s1 s' hrest
      obtain ⟨hc1, hmd1, hmono1⟩ := set_property_mono meta s pv.1 e pv.2 s1 hset
      refine ⟨by rw [hc, hc1], by rw [hmd, hmd1],
        fun q j hq => hmono q j (hmono1 q j hq), ?_⟩
      intro p hp
      unfold hasProperty at hp
      simp only [List.any_cons, Bool.or_eq_true] at hp
      cases hp with
      | inl hph =>
        have hpe : pv.1 = p := of_decide_eq_true hph
        subst hpe
        exact hmono _ _ (set_property_establishes meta s pv.1 e pv.2 s1 hset)
      | inr hpr =>
        exact hhas p hpr

theorem checkList_ok_required (init : InitList) :
    ∀ (l : List PropertyInfo) (u : Unit), checkList init l = .ok u →
      ∀ info ∈ l, info.is_required = true → hasProperty init info.type_id = true := by
  intro l
  induction l with
  | nil => intro u h info hin; exact absurd hin (List.not_mem_nil _)
  | cons info0 rest ih =>
    intro u h info hin hreq
    unfold checkList at h
    by_cases hc : (info0.is_required && !hasProperty init info0.type_id) = true
    · rw [if_pos hc] at h; cases h
    · rw [if_neg hc] at h
      cases List.mem_cons.1 hin with
      | inl heq =>
        subst heq
        simp only [Bool.and_eq_true, Bool.not_eq_true'] at hc
        by_cases hh : hasProperty init info.type_id = true
        · exact hh
        · rw [Bool.not_eq_true] at hh
          exact absurd ⟨hreq, hh⟩ hc
      | inr hmem => exact ih u h info hmem hreq

theorem addEntityC_inv (meta : PropMetaF) (s : EntityData) (init : InitList)
    (s' : EntityData) (r : Except IxaError Nat)
    (h : addEntityC meta s init = some (s', r)) (hInv : RequiredInv s) :
    RequiredInv s' := by
  unfold addEntityC at h
  cases hc : checkList init s.property_metadata with
  | error e =>
    rw [hc] at h
    injection h with h1
    injection h1 with hA hB
    rw [← hA]
    exact hInv
  | ok u =>
    rw [hc] at h
    cases hsp : setProperties meta init
        { s with entity_count := s.entity_count + 1, is_initializing := true }
        s.entity_count with
    | none => rw [hsp] at h; cases h
    | some s2 =>
      rw [hsp] at h
      injection h with h1
      injection h1 with hA hB
      obtain ⟨hc2, hmd2, hmono2, hhas2⟩ := setProperties_spec meta s.entity_count init _ s2 hsp
      rw [← hA]
      intro info hin hreq e he
      have hin2 : info ∈ s.property_metadata := by
        have : info ∈ s2.property_metadata := hin
        rwa [hmd2] at this
      have he2 : e < s.entity_count + 1 := by
        have hcount : s2.entity_count = s.entity_count + 1 := hc2
        have : e < s2.entity_count := he
        omega
      show (s2.get_property_ref info.type_id e).isSome = true
      by_cases hlt : e < s.entity_count
      · exact hmono2 _ _ (hInv info hin2 hreq e hlt)
      · have he3 : e = s.entity_count := by omega
        subst he3
        exact hhas2 info.type_id (checkList_ok_required init s.property_metadata u hc info hin2 hreq)

theorem registerProperty_fields (meta : PropMetaF) (s : EntityData) (p : Nat) :
    (registerProperty meta s p).entity_count = s.entity_count ∧
    (registerProperty meta s p).properties_map = s.properties_map ∧
    ∀ q, q ∈ s.registered_derived_properties →
      q ∈ (registerProperty meta s p).registered_derived_properties := by
  unfold registerProperty
  by_cases h : p ∈ s.registered_derived_properties
  · rw [if_pos h]
    exact ⟨rfl, rfl, fun q hq => hq⟩
  · rw [if_neg h]
    exact ⟨rfl, rfl, fun q hq => List.mem_append.2 (Or.inl hq)⟩

theorem registerProperty_inv (meta : PropMetaF) (s : EntityData) (p : Nat)
    (hInv : RequiredInv s) (hG : RegGuard meta s p) :
    RequiredInv (registerProperty meta s p) := by
  unfold registerProperty
  by_cases h : p ∈ s.registered_derived_properties
  · rw [if_pos h]
    exact hInv
  · rw [if_neg h]
    intro info hin hreq e he
    have hgpr :
        ({ s with
            registered_derived_properties := s.registered_derived_properties ++ [p]
            property_metadata := s.property_metadata ++
              [{ name := (meta p).name, type_id := p
               , is_required := (meta p).is_required, is_derived := (meta p).is_derived }]
            property_indexes := aupdate s.property_indexes p Index.new } :
          EntityData).get_property_ref info.type_id e = s.get_property_ref info.type_id e := by
      rw [get_property_ref_eq_getD, get_property_ref_eq_getD]
    rw [hgpr]
    cases List.mem_append.1 hin with
    | inl hold => exact hInv info hold hreq e he
    | inr hnew =>
      have hinfo := List.mem_singleton.1 hnew
      subst hinfo
      cases hG hreq with
      | inl hmem => exact absurd hmem h
      | inr hzero =>
        have : e < s.entity_count := he
        rw [hzero] at this
        exact absurd this (Nat.not_lt_zero e)

theorem regGuard_register (meta : PropMetaF) (s : EntityData) (p q : Nat)
    (h : RegGuard meta s q) : RegGuard meta (registerProperty meta s p) q := by
  intro hreq
  cases h hreq with
  | inl hmem => exact Or.inl ((registerProperty_fields meta s p).2.2 q hmem)
  | inr hz => exact Or.inr (by rw [(registerProperty_fields meta s p).1]; exact hz)

theorem registerFold_inv (meta : PropMetaF) :
    ∀ (q : QueryL) (s : EntityData), RequiredInv s → (∀ pv ∈ q, RegGuard meta s pv.1) →
      RequiredInv (q.foldl (fun acc pv => registerProperty meta acc pv.1) s) := by
  intro q
  induction q with
  | nil => intro s hI _; exact hI
  | cons pv rest ih =>
    intro s hI hG
    rw [List.foldl_cons]
    apply ih
    · exact registerProperty_inv meta s pv.1 hI (hG pv (List.mem_cons_self _ _))
    · intro pv' hpv'
      exact regGuard_register meta s pv.1 pv'.1 (hG pv' (List.mem_cons_of_mem _ hpv'))

theorem setupStep_fields (meta : PropMetaF) (acc : EntityData) (pv : Nat × Val)
    (s' : EntityData) (h : setupStep meta acc pv = .ok s') :
    s'.properties_map = acc.properties_map ∧
    s'.property_metadata = acc.property_metadata ∧
    s'.entity_count = acc.entity_count := by
  unfold setupStep at h
  cases hu : indexUnindexed meta acc pv.1
      ((alookup acc.property_indexes pv.1).getD Index.new) with
  | error e => rw [hu] at h; cases h
  | ok ix' =>
    rw [hu] at h
    injection h with h1
    rw [← h1]
    exact ⟨rfl, rfl, rfl⟩

theorem setupFold_fields (meta : PropMetaF) :
    ∀ (q : QueryL) (s s' : EntityData), q.foldlM (setupStep meta) s = .ok s' →
      s'.properties_map = s.properties_map ∧
      s'.property_metadata = s.property_metadata ∧
      s'.entity_count = s.entity_count := by
  intro q
  induction q with
  | nil =>
    intro s s' h
    rw [List.foldlM_nil] at h
    injection h with h1
    rw [← h1]
    exact ⟨rfl, rfl, rfl⟩
  | cons pv rest ih =>
    intro s s' h
    rw [List.foldlM_cons] at h
    cases hs : setupStep meta s pv with
    | error e => rw [hs] at h; cases h
    | ok s1 =>
      rw [hs] at h
      have hrest : rest.foldlM (setupStep meta) s1 = .ok s' := h
      obtain ⟨h1, h2, h3⟩ := ih s1 s' hrest
      obtain ⟨g1, g2, g3⟩ := setupStep_fields meta s pv s1 hs
      exact ⟨by rw [h1, g1], by rw [h2, g2], by rw [h3, g3]⟩

theorem querySetup_inv (meta : PropMetaF) (s : EntityData) (q : QueryL)
    (s' : EntityData) (h : querySetup meta s q = .ok s') (hInv : RequiredInv s)
    (hG : ∀ pv ∈ q, RegGuard meta s pv.1) : RequiredInv s' := by
  unfold querySetup at h
  obtain ⟨hm, hmd, hc⟩ := setupFold_fields meta q _ s' h
  exact requiredInv_congr _ s' hm hmd hc (registerFold_inv meta q s hInv hG)

theorem matchEntity_inv (meta : PropMetaF) :
    ∀ (q : QueryL) (s : EntityData) (e : Nat), RequiredInv s →
      (∀ pv ∈ q, RegGuard meta s pv.1) →
      RequiredInv (matchEntity meta s q e).1 := by
  intro q
  induction q with
  | nil => intro s e hI _; exact hI
  | cons pv rest ih =>
    obtain ⟨p, v⟩ := pv
    intro s e hI hG
    have hreg : RequiredInv (registerProperty meta s p) :=
      registerProperty_inv meta s p hI (hG (p, v) (List.mem_cons_self _ _))
    have hGreg : ∀ pv' ∈ rest, RegGuard meta (registerProperty meta s p) pv'.1 :=
      fun pv' h' => regGuard_register meta s p pv'.1 (hG pv' (List.mem_cons_of_mem _ h'))
    unfold matchEntity
    cases hcp : (getProperty meta s p e).2 with
    | none => exact hreg
    | some w =>
      change RequiredInv (if w = v then matchEntity meta (getProperty meta s p e).1 rest e
        else ((getProperty meta s p e).1, false)).1
      by_cases hw : w = v
      · rw [if_pos hw]
        exact ih (getProperty meta s p e).1 e hreg hGreg
      · rw [if_neg hw]
        exact hreg

theorem getD_append_replicate_none (l : List (Option Val)) (n j : Nat) :
    ((l ++ List.replicate n (none : Option Val)).getD j none).isSome =
      (l.getD j none).isSome := by
  rw [List.getD_eq_getElem?_getD, List.getD_eq_getElem?_getD]
  by_cases hj : j < l.length
  · rw [List.getElem?_append_left hj]
  · rw [List.getElem?_append_right (by omega), List.getElem?_replicate,
      List.getElem?_eq_none (by omega)]
    by_cases hr : j - l.length < n
    · rw [if_pos hr]
      rfl
    · rw [if_neg hr]

theorem getPropertyOrDefault_inv (meta : PropMetaF) (s : EntityData) (p e : Nat)
    (d : Val) (s' : EntityData) (v : Val)
    (h : getPropertyOrDefault meta s p e d = some (s', v)) (hInv : RequiredInv s) :
    RequiredInv s' := by
  unfold getPropertyOrDefault at h
  by_cases hd : (meta p).is_derived
  · rw [if_pos hd] at h; cases h
  · rw [if_neg hd] at h
    cases hslot : (storeOf s p).values.getD e none with
    | some w =>
      rw [hslot] at h
      injection h with h1
      injection h1 with hA hB
      rw [← hA]
      intro info hin hreq e' he'
      by_cases hq : info.type_id = p
      · rw [get_property_ref_eq_getD]
        simp only [hq, alookup_aupdate_self, Option.getD_some]
        have hbase := hInv info hin hreq e' he'
        rw [get_property_ref_eq_getD, hq] at hbase
        by_cases hlen : e < (storeOf s p).values.length
        · rw [if_pos hlen]
          exact hbase
        · rw [if_neg hlen, getD_append_replicate_none]
          exact hbase
      · rw [get_property_ref_eq_getD]
        rw [alookup_aupdate_ne _ _ _ _ hq, ← get_property_ref_eq_getD]
        exact hInv info hin hreq e' he'
    | none =>
      rw [hslot] at h
      injection h with h1
      injection h1 with hA hB
      rw [← hA]
      intro info hin hreq e' he'
      by_cases hq : info.type_id = p
      · rw [get_property_ref_eq_getD]
        simp only [hq, alookup_aupdate_self, Option.getD_some]
        by_cases hje : e' = e
        · subst hje
          rw [growWrite_getD_self]
          rfl
        · rw [growWrite_getD_other _ _ _ _ hje]
          have := hInv info hin hreq e' he'
          rw [get_property_ref_eq_getD, hq] at this
          exact this
      · rw [get_property_ref_eq_getD]
        rw [alookup_aupdate_ne _ _ _ _ hq, ← get_property_ref_eq_getD]
        exact hInv info hin hreq e' he'

theorem indexProperty_inv (meta : PropMetaF) (s : EntityData) (p : Nat)
    (hInv : RequiredInv s) (hG : RegGuard meta s p) :
    RequiredInv (indexProperty meta s p) := by
  unfold indexProperty
  exact requiredInv_congr (registerProperty meta s p) _ rfl rfl rfl
    (registerProperty_inv meta s p hInv hG)

/-- The extension operations of §6.2, restricted by the
registration-before-population discipline: any operation that can
register a property (get_property, index_property, query setup,
match_entity) carries a `RegGuard` for each property it touches. -/
inductive GStep (meta : PropMetaF) : EntityData → EntityData → Prop where
  | add (s : EntityData) (init : InitList) (s' : EntityData) (r : Except IxaError Nat) :
      addEntityC meta s init = some (s', r) → GStep meta s s'
  | set (s : EntityData) (p e : Nat) (v : Val) (s' : EntityData) :
      EntityData.set_property meta s p e v = some s' → GStep meta s s'
  | getP (s : EntityData) (p e : Nat) :
      RegGuard meta s p → GStep meta s (getProperty meta s p e).1
  | getOrDefault (s : EntityData) (p e : Nat) (d : Val) (s' : EntityData) (v : Val) :
      getPropertyOrDefault meta s p e d = some (s', v) → GStep meta s s'
  | indexP (s : EntityData) (p : Nat) :
      RegGuard meta s p → GStep meta s (indexProperty meta s p)
  | setupQ (s : EntityData) (q : QueryL) (s' : EntityData) :
      (∀ pv ∈ q, RegGuard meta s pv.1) → querySetup meta s q = .ok s' →
      GStep meta s s'
  | matchQ (s : EntityData) (q : QueryL) (e : Nat) :
      (∀ pv ∈ q, RegGuard meta s pv.1) → GStep meta s (matchEntity meta s q e).1

/-- Reachability through guarded extension operations. -/
inductive GReach (meta : PropMetaF) : EntityData → EntityData → Prop where
  | refl (s : EntityData) : GReach meta s s
  | tail (s t u : EntityData) : GReach meta s t → GStep meta t u → GReach meta s u

theorem gstep_inv (meta : PropMetaF) (s s' : EntityData) (h : GStep meta s s')
    (hInv : RequiredInv s) : RequiredInv s' := by
  cases h with
  | add init _ r hadd => exact addEntityC_inv meta s init _ r hadd hInv
  | set p e v _ hset => exact set_property_inv meta s p e v _ hset hInv
  | getP p e hG => exact registerProperty_inv meta s p hInv hG
  | getOrDefault p e d _ v hget => exact getPropertyOrDefault_inv meta s p e d _ v hget hInv
  | indexP p hG => exact indexProperty_inv meta s p hInv hG
  | setupQ q _ hG hsetup => exact querySetup_inv meta s q _ hsetup hInv hG
  | matchQ q e hG => exact matchEntity_inv meta q s e hInv hG

/-- Claim C9 (amended): the required-property invariant — every property
whose registered metadata says `is_required` has `Some(_)` for every live
entity — holds in every state reachable through the extension operations
from a state satisfying it, **provided** every registration of a required
property happens while it is already registered or the population is
empty.  (Unrestricted, the invariant fails: properties register on first
use, so a required property first touched after `add_entity` leaves the
earlier entities without values.) -/
theorem required_property_invariant (meta : PropMetaF) (s t : EntityData)
    (hInv : RequiredInv s) (h : GReach meta s t) : RequiredInv t := by
  induction h with
  | refl => exact hInv
  | tail _ _ hreach hstep ih => exact gstep_inv meta _ _ hstep ih

/-- The guarded counterpart of the C9 counterexample trace: register the
required property 9 first (while the population is empty), then create
entity 0 with a value for it. -/
def wReg : EntityData := (getProperty metaReq EntityData.default 9 0).1

def wAdd : EntityData :=
  ((addEntityC metaReq wReg [(9, v1)]).getD (EntityData.default, .ok 0)).1

/-- Closed instantiation of `required_property_invariant` along the
guarded trace register-then-add. -/
theorem required_property_invariant_witness :
    RequiredInv EntityData.default ∧
    GReach metaReq EntityData.default wAdd ∧
    RequiredInv wAdd := by
  have hInv0 : RequiredInv EntityData.default :=
    fun info hin => absurd hin (List.not_mem_nil _)
  have hchain : GReach metaReq EntityData.default wAdd :=
    GReach.tail _ _ _
      (GReach.tail _ _ _ (GReach.refl _)
        (GStep.getP EntityData.default 9 0 (fun _ => Or.inr rfl)))
      (GStep.add wReg [(9, v1)] wAdd (.ok 0) (by decide))
  exact ⟨hInv0, hchain, required_property_invariant metaReq EntityData.default wAdd hInv0 hchain⟩

end IxaCore
